import Mathlib

/-!
Verification of the schedule-aggregation and timeline-construction core of the
LivebarnScrape repository.

The embedding covers:
* `parseChillerDatetime` / `parseLgriaDatetime` — models of
  `datetime.strptime(s, "%Y-%m-%d %H:%M:%S.%f")` (ChillerProvider._parse_datetime,
  also used by `schedule_utils.fill_gaps_with_open_ice`) and
  `datetime.strptime(s, "%Y-%m-%dT%H:%M:%S")` (LGRIAProvider._parse_datetime),
  returning `none` where Python raises/returns `None`.
* `DateTime`, `dtToMicro` — naive datetimes and their order/arithmetic embedding
  as microseconds on the proleptic Gregorian calendar (Python `datetime` objects
  compare lexicographically by field, which is exactly the `dtToMicro` order, and
  `timedelta` arithmetic is microsecond arithmetic).
* provider normalization (`chillerNormOne`, `lgriaNormOne`, ...), grouping
  (`group_events_by_surface`) and the gap filler (`fill_gaps_with_open_ice`).

Timestamps are modelled as `Int` microseconds; `timedelta(hours=1)` is
`hourUs = 3600000000`.
-/

namespace LivebarnScrape

/-! ### Datetimes and the strptime model -/

/-- A naive Python `datetime` value (no timezone), as produced by
`datetime.strptime`.  `microsecond` is `0 ≤ _ < 1000000` for every value the
parsers below produce. -/
structure DateTime where
  year : Nat
  month : Nat
  day : Nat
  hour : Nat
  minute : Nat
  second : Nat
  microsecond : Nat
deriving DecidableEq, Repr

def isLeapYear (y : Nat) : Bool :=
  y % 4 == 0 && (y % 100 != 0 || y % 400 == 0)

def daysInMonth (y m : Nat) : Nat :=
  if m = 2 then (if isLeapYear y then 29 else 28)
  else if m = 4 ∨ m = 6 ∨ m = 9 ∨ m = 11 then 30
  else 31

/-- Cumulative days before month `m` in year `y` (proleptic Gregorian). -/
def daysBeforeMonth (y m : Nat) : Nat :=
  let base :=
    match m with
    | 1 => 0 | 2 => 31 | 3 => 59 | 4 => 90 | 5 => 120 | 6 => 151
    | 7 => 181 | 8 => 212 | 9 => 243 | 10 => 273 | 11 => 304 | _ => 334
  if 3 ≤ m ∧ isLeapYear y then base + 1 else base

/-- `datetime.date.toordinal`: day number of a proleptic-Gregorian date,
with 0001-01-01 being day 1. -/
def dtOrdinal (dt : DateTime) : Nat :=
  let n := dt.year - 1
  365 * n + n / 4 + n / 400 + daysBeforeMonth dt.year dt.month + dt.day - n / 100

/-- Embed a `datetime` as microseconds.  This is a strictly monotone image of
the field-lexicographic order Python uses to compare `datetime` values, and
`datetime ± timedelta` is addition on this embedding. -/
def dtToMicro (dt : DateTime) : Int :=
  (((dtOrdinal dt * 86400 + dt.hour * 3600 + dt.minute * 60 + dt.second) * 1000000
    + dt.microsecond : Nat) : Int)

/-! `strptime` building blocks.  CPython's `_strptime` compiles the format to a
regex: `%Y` is exactly four digits, `%m`/`%d`/`%H`/`%M`/`%S` are one or two
digits (with `%m`, `%d` not allowing zero), `%f` is one to six digits padded
right to microseconds, a literal space matches one or more whitespace
characters, and the whole string must be consumed.  Range constraints not
enforced by the regex (day vs. month length, second ≤ 59, year ≥ 1) are raised
by the `datetime` constructor; both failure paths are caught by the providers,
so both are `none` here. -/

def digitsVal (cs : List Char) : Nat :=
  cs.foldl (fun a c => a * 10 + (c.toNat - 48)) 0

def takeDigits : List Char → List Char × List Char
  | [] => ([], [])
  | c :: rest =>
    if c.isDigit then
      let (d, r) := takeDigits rest
      (c :: d, r)
    else ([], c :: rest)

def pyIsSpace (c : Char) : Bool :=
  c = ' ' || c = '\t' || c = '\n' || c = '\r' || c = '\x0b' || c = '\x0c'

/-- Python `str.strip()` (for the ASCII whitespace the payloads contain):
drop leading and trailing whitespace characters. -/
def pyStrip (s : String) : String :=
  String.mk (((s.data.dropWhile pyIsSpace).reverse.dropWhile pyIsSpace).reverse)

deriving instance DecidableEq for Except

/-- `%Y`: exactly four digits. -/
def parseYear4 : List Char → Option (Nat × List Char)
  | a :: b :: c :: d :: r =>
    if a.isDigit && b.isDigit && c.isDigit && d.isDigit then
      some (digitsVal [a, b, c, d], r)
    else none
  | _ => none

/-- A one-or-two digit field whose value must lie in `[lo, hi]`;
the maximal digit run is taken (the following format character is never a
digit, so regex backtracking cannot accept a shorter run). -/
def parseField2 (lo hi : Nat) (cs : List Char) : Option (Nat × List Char) :=
  let (d, r) := takeDigits cs
  if d.length = 1 ∨ d.length = 2 then
    let v := digitsVal d
    if lo ≤ v ∧ v ≤ hi then some (v, r) else none
  else none

def expectChar (c : Char) : List Char → Option (List Char)
  | c' :: r => if c' = c then some r else none
  | [] => none

/-- A literal space in the format: one or more whitespace characters. -/
def skipSpaces1 : List Char → Option (List Char)
  | c :: r => if pyIsSpace c then some (r.dropWhile pyIsSpace) else none
  | [] => none

/-- `%f` at end of input: one to six digits, right-padded to microseconds;
anything left over is "unconverted data" and fails the parse. -/
def parseFracEnd (cs : List Char) : Option Nat :=
  let (d, r) := takeDigits cs
  if 1 ≤ d.length ∧ d.length ≤ 6 ∧ r = [] then
    some (digitsVal d * 10 ^ (6 - d.length))
  else none

/-- `ChillerProvider._parse_datetime` /
`schedule_utils.fill_gaps_with_open_ice.parse_datetime`:
`datetime.strptime(dt_str, "%Y-%m-%d %H:%M:%S.%f")`, `none` on failure. -/
def parseChillerDatetime (s : String) : Option DateTime := do
  let (y, r1) ← parseYear4 s.data
  if y < 1 then none else do
  let r2 ← expectChar '-' r1
  let (mo, r3) ← parseField2 1 12 r2
  let r4 ← expectChar '-' r3
  let (d, r5) ← parseField2 1 (daysInMonth y mo) r4
  let r6 ← skipSpaces1 r5
  let (h, r7) ← parseField2 0 23 r6
  let r8 ← expectChar ':' r7
  let (mi, r9) ← parseField2 0 59 r8
  let r10 ← expectChar ':' r9
  let (sec, r11) ← parseField2 0 59 r10
  let r12 ← expectChar '.' r11
  let us ← parseFracEnd r12
  pure ⟨y, mo, d, h, mi, sec, us⟩

/-- `LGRIAProvider._parse_datetime`:
`datetime.strptime(dt_str, "%Y-%m-%dT%H:%M:%S")`, `none` on failure.
(The regex is compiled case-insensitively, so a lowercase `t` also matches.) -/
def parseLgriaDatetime (s : String) : Option DateTime := do
  let (y, r1) ← parseYear4 s.data
  if y < 1 then none else do
  let r2 ← expectChar '-' r1
  let (mo, r3) ← parseField2 1 12 r2
  let r4 ← expectChar '-' r3
  let (d, r5) ← parseField2 1 (daysInMonth y mo) r4
  let r6 ←
    match r5 with
    | c :: r => if c = 'T' || c = 't' then some r else none
    | [] => none
  let (h, r7) ← parseField2 0 23 r6
  let r8 ← expectChar ':' r7
  let (mi, r9) ← parseField2 0 59 r8
  let r10 ← expectChar ':' r9
  let (sec, r11) ← parseField2 0 59 r10
  if r11 = [] then pure ⟨y, mo, d, h, mi, sec, 0⟩ else none

/-! ### The normalized event model and the two providers -/

/-- `ScheduleEvent` (base_provider.py).  `raw_data` is omitted: it is retained
only for diagnostics and never consulted downstream. -/
structure ScheduleEvent where
  surface_id : Int
  start_time : DateTime
  end_time : DateTime
  title : String
  description : Option String := none
  event_type : Option String := none
deriving DecidableEq, Repr

/-- One `<event>` element of the Chiller XML payload, after
`raw_event[child.tag] = (child.text or "").strip()`: a string map; absent tags
are modelled as `none` (then `dict.get` supplies the default). -/
structure ChillerRawEvent where
  id : String := ""
  productid : Option String := none
  start_date : Option String := none
  end_date : Option String := none
  text : Option String := none
deriving DecidableEq, Repr

def ICE_SHEET_PRODUCT_IDS : List String :=
  ["1", "2", "5", "6", "8", "9", "13", "14", "16", "24"]

def SURFACE_MAPPINGS : List (String × Int) :=
  [("1", 864), ("2", 865), ("5", 867), ("6", 866), ("8", 868),
   ("9", 869), ("13", 872), ("14", 871), ("16", 873), ("24", 870)]

/-- The per-event body of `ChillerProvider.fetch_schedule`'s loop: `none`
mirrors `continue`.  (`if not surface_id` also rejects a mapped id of `0`.) -/
def chillerNormOne (raw : ChillerRawEvent) : Option ScheduleEvent :=
  if raw.productid.getD "" ∈ ICE_SHEET_PRODUCT_IDS then
    match SURFACE_MAPPINGS.lookup (raw.productid.getD "") with
    | none => none
    | some sid =>
      if sid = 0 then none
      else
        match parseChillerDatetime (raw.start_date.getD ""),
              parseChillerDatetime (raw.end_date.getD "") with
        | some st, some en =>
          some { surface_id := sid, start_time := st, end_time := en,
                 title := pyStrip (raw.text.getD "Ice Time") }
        | _, _ => none
  else none

def chillerNormalize (raws : List ChillerRawEvent) : List ScheduleEvent :=
  raws.filterMap chillerNormOne

/-- Outcome of the remote interaction in `ChillerProvider.fetch_schedule`:
the transport layer raised (connection error, timeout, `raise_for_status`),
`ET.fromstring` raised, or an XML document with its `<event>` elements was
obtained. -/
inductive ChillerFetchOutcome where
  | transportError
  | xmlParseError
  | payload (raws : List ChillerRawEvent)
deriving DecidableEq

/-- `ChillerProvider.fetch_schedule`: the whole body is wrapped in
`try ... except Exception: return []`.  The date-range parameters only shape
the remote query, so they do not appear in the normalization. -/
def chillerFetchSchedule : ChillerFetchOutcome → List ScheduleEvent
  | .transportError => []
  | .xmlParseError => []
  | .payload raws => chillerNormalize raws

/-- One element of the `_onlineScheduleList` JSON array (LGRIA page).
JSON `null` and an absent key both read back as the `dict.get` default. -/
structure LgriaRawEvent where
  EventStartTime : Option String := none
  EventEndTime : Option String := none
  Description : Option String := none
  AccountName : Option String := none
  ScheduleNotes : Option String := none
  EventTypeName : Option String := none
deriving DecidableEq, Repr

def LGRIA_SURFACE_ID : Int := 2445

/-- Ordering used by `events.sort(key=lambda e: e.start_time)`. -/
def eventTimeLE (a b : ScheduleEvent) : Prop :=
  dtToMicro a.start_time ≤ dtToMicro b.start_time

instance : DecidableRel eventTimeLE := fun a b =>
  inferInstanceAs (Decidable (dtToMicro a.start_time ≤ dtToMicro b.start_time))

instance : IsTotal ScheduleEvent eventTimeLE :=
  ⟨fun a b => le_total (dtToMicro a.start_time) (dtToMicro b.start_time)⟩

instance : IsTrans ScheduleEvent eventTimeLE :=
  ⟨fun _ _ _ h1 h2 => le_trans h1 h2⟩

/-- Per-event body of `LGRIAProvider.fetch_schedule`'s loop (`none` = `continue`):
parse both timestamps, apply the strict "starts within window" filter, pick the
title as `Description or AccountName-default`, then build the event.
`windowStart`/`windowEnd` are the `start_date`/`end_date` parameters. -/
def lgriaNormOne (windowStart windowEnd : Int) (raw : LgriaRawEvent) :
    Option ScheduleEvent :=
  match parseLgriaDatetime (raw.EventStartTime.getD ""),
        parseLgriaDatetime (raw.EventEndTime.getD "") with
  | some st, some en =>
    if dtToMicro st < windowStart ∨ windowEnd ≤ dtToMicro st then none
    else
      let nm :=
        if (raw.Description.getD "") ≠ "" then raw.Description.getD ""
        else raw.AccountName.getD "Ice Time"
      some { surface_id := LGRIA_SURFACE_ID, start_time := st, end_time := en,
             title := pyStrip nm,
             description := some (raw.ScheduleNotes.getD ""),
             event_type := some (raw.EventTypeName.getD "") }
  | _, _ => none

/-- Loop plus final `events.sort(key=lambda e: e.start_time)` (a stable sort;
`insertionSort` is stable, hence extensionally identical to Python's sort). -/
def lgriaNormalize (windowStart windowEnd : Int) (raws : List LgriaRawEvent) :
    List ScheduleEvent :=
  List.insertionSort eventTimeLE (raws.filterMap (lgriaNormOne windowStart windowEnd))

/-- `str.find` for a pattern, on character lists: index of the first
occurrence, or `none`. -/
def findMarker (pat : List Char) : List Char → Option Nat
  | [] => if pat.isPrefixOf ([] : List Char) then some 0 else none
  | c :: t =>
    if pat.isPrefixOf (c :: t) then some 0
    else (findMarker pat t).map (· + 1)

/-- The bracket-depth scan of `_extract_js_list_variable`: starting from the
first character after `start` (which is `[`), track depth and return the index
of the `]` that closes the first bracket. -/
def scanBracket : List Char → Nat → Int → Option Nat
  | [], _, _ => none
  | c :: rest, i, depth =>
    if c = '[' then scanBracket rest (i + 1) (depth + 1)
    else if c = ']' then
      if depth - 1 = 0 then some i else scanBracket rest (i + 1) (depth - 1)
    else scanBracket rest (i + 1) depth

/-- `LGRIAProvider._extract_js_list_variable`: locate `var_name + " ="`, the
first `[` after it, and the matching `]` by depth counting; `Except.error`
models the `RuntimeError`s it raises. -/
def extractJsListVariable (html : String) (varName : String) : Except String String :=
  let cs := html.data
  let marker := varName ++ " ="
  match findMarker marker.data cs with
  | none => .error ("Could not find variable " ++ varName ++ " in HTML")
  | some idx =>
    match (findMarker ['['] (cs.drop idx)).map (· + idx) with
    | none => .error ("No bracket found after " ++ varName ++ " assignment")
    | some start =>
      match scanBracket (cs.drop start) start 0 with
      | none => .error ("Could not find matching bracket for " ++ varName)
      | some endIdx => .ok (String.mk ((cs.drop start).take (endIdx + 1 - start)))

/-- Outcome of the transport phase of `LGRIAProvider.fetch_schedule`. -/
inductive LgriaFetchOutcome where
  | transportError
  | html (page : String)

/-- `LGRIAProvider.fetch_schedule`.  `jsonLoads` is the semantics of
`json.loads` restricted to this payload shape (`none` models a raised
`JSONDecodeError`); the whole body is wrapped in
`try ... except Exception: return []`. -/
def lgriaFetchSchedule (jsonLoads : String → Option (List LgriaRawEvent))
    (o : LgriaFetchOutcome) (windowStart windowEnd : Int) : List ScheduleEvent :=
  match o with
  | .transportError => []
  | .html page =>
    match extractJsListVariable page "_onlineScheduleList" with
    | .error _ => []
    | .ok rawStr =>
      match jsonLoads rawStr with
      | none => []
      | some raws => lgriaNormalize windowStart windowEnd raws

/-! ### Legacy format and grouping (schedule_utils.py) -/

/-- A legacy event dict `{"start_date": ..., "end_date": ..., "text": ...}`;
an absent `"text"` key is `none` (`dict.get` supplies defaults). -/
structure LegacyEvent where
  start_date : String
  end_date : String
  text : Option String
deriving DecidableEq, Repr

def pad2 (n : Nat) : String :=
  if n < 10 then "0" ++ toString n else toString n

/-- `strftime("%Y-%m-%d %H:%M:%S.0")` on a naive datetime (glibc `%Y` prints
the year unpadded; post-1000 years are four digits).  Note the literal `.0`:
microseconds are discarded by this format. -/
def formatLegacy (dt : DateTime) : String :=
  toString dt.year ++ "-" ++ pad2 dt.month ++ "-" ++ pad2 dt.day ++ " " ++
    pad2 dt.hour ++ ":" ++ pad2 dt.minute ++ ":" ++ pad2 dt.second ++ ".0"

/-- The legacy-dict conversion used by `group_events_by_surface` (and
`events_to_legacy_format`). -/
def toLegacy (ev : ScheduleEvent) : LegacyEvent :=
  { start_date := formatLegacy ev.start_time,
    end_date := formatLegacy ev.end_time,
    text := some ev.title }

/-- Append `le` to the entry for `sid` in an association list, creating the
entry at the end if missing — the first loop of `group_events_by_surface`
(Python dicts preserve insertion order). -/
def addEvent : List (Int × List LegacyEvent) → Int → LegacyEvent →
    List (Int × List LegacyEvent)
  | [], sid, le => [(sid, [le])]
  | (k, vs) :: rest, sid, le =>
    if k = sid then (k, vs ++ [le]) :: rest
    else (k, vs) :: addEvent rest sid le

def groupRaw (events : List ScheduleEvent) : List (Int × List LegacyEvent) :=
  events.foldl (fun acc ev => addEvent acc ev.surface_id (toLegacy ev)) []

/-- Ordering of `grouped[surface_id].sort(key=lambda e: e["start_date"])`:
Python compares strings lexicographically by code point, i.e. the
lexicographic order on the character lists. -/
def legacyLE (a b : LegacyEvent) : Prop :=
  a.start_date.data ≤ b.start_date.data

instance : DecidableRel legacyLE := fun a b =>
  inferInstanceAs (Decidable (a.start_date.data ≤ b.start_date.data))

instance : IsTotal LegacyEvent legacyLE :=
  ⟨fun a b => le_total a.start_date.data b.start_date.data⟩

instance : IsTrans LegacyEvent legacyLE :=
  ⟨fun _ _ _ h1 h2 => le_trans h1 h2⟩

def sortLegacy (l : List LegacyEvent) : List LegacyEvent :=
  List.insertionSort legacyLE l

/-- `group_events_by_surface`: group by `surface_id` into legacy dicts, then
stably sort each group by its `start_date` string.  The returned association
list is the Python dict (insertion-ordered); dict equality is `List.lookup`
equality. -/
def group_events_by_surface (events : List ScheduleEvent) :
    List (Int × List LegacyEvent) :=
  (groupRaw events).map (fun p => (p.1, sortLegacy p.2))

/-! ### The gap filler (schedule_utils.fill_gaps_with_open_ice) -/

/-- `timedelta(hours=1)` in microseconds. -/
def hourUs : Int := 3600000000

/-- A legacy event after the in-loop `parse_datetime` calls: start/end as
microseconds, the `"text"` entry untouched. -/
structure PEvent where
  startUs : Int
  endUs : Int
  text : Option String
deriving DecidableEq, Repr

def parseLegacy (e : LegacyEvent) : Option PEvent :=
  match parseChillerDatetime e.start_date, parseChillerDatetime e.end_date with
  | some st, some en => some ⟨dtToMicro st, dtToMicro en, e.text⟩
  | _, _ => none

/-- `gap_end = min(current_time + timedelta(hours=1), target)`. -/
def gapStep (c t : Int) : Int := min (c + hourUs) t

/-- The 1-hour filler `while` loop, with an explicit iteration budget.  Each
iteration advances the cursor by at least one microsecond, so a budget of
`(t - c).toNat` always suffices (`gapFillAux_eq_of_le` below makes the budget
irrelevant); this keeps the definition structurally recursive. -/
def gapFillAux : Nat → Int → Int → List (Int × Int × String)
  | 0, _, _ => []
  | n + 1, c, t =>
    if c < t then (c, gapStep c t, "Open Ice") :: gapFillAux n (gapStep c t) t
    else []

/-- `while current_time < t: append (current_time, gap_end, "Open Ice")`. -/
def gapFill (c t : Int) : List (Int × Int × String) :=
  gapFillAux (t - c).toNat c t

/-- `event.get("text", "Ice Time").strip()`, with the empty-after-strip
fallback to `"Ice Time"`. -/
def eventTitle (ev : PEvent) : String :=
  if pyStrip (ev.text.getD "Ice Time") = "" then "Ice Time"
  else pyStrip (ev.text.getD "Ice Time")

/-- The main loop of `fill_gaps_with_open_ice` over already-parsed events:
fill the gap up to the event, emit the event block, move the cursor to the
event's end; finally fill up to the window end.  (The dead
`if not event_start or not event_end: continue` branch never fires: Python
`datetime` objects are always truthy.) -/
def fillPrograms : List PEvent → Int → Int → List (Int × Int × String)
  | [], c, e => gapFill c e
  | ev :: rest, c, e =>
    gapFill c ev.startUs ++
      ((ev.startUs, ev.endUs, eventTitle ev) :: fillPrograms rest ev.endUs e)

/-- `schedule_utils.fill_gaps_with_open_ice`.  Its `parse_datetime` raises
`ValueError` on an unparseable `start_date`/`end_date` (unlike the providers'
`_parse_datetime` there is no `try`), and nothing catches it, so the whole
call fails — `Except.error` — exactly when some event fails to parse;
otherwise the emitted list depends only on the parsed events, in order. -/
def fill_gaps_with_open_ice (events : List LegacyEvent) (start stop : Int) :
    Except Unit (List (Int × Int × String)) :=
  match events.mapM parseLegacy with
  | some pevs => .ok (fillPrograms pevs start stop)
  | none => .error ()

/-- `tilesB l s e`: the blocks of `l` tile `[s, e)` exactly — the first block
starts at `s`, each block starts where the previous one ended, and the last
block ends at `e` (for `l = []` this demands `s = e`). -/
def tilesB : List (Int × Int × String) → Int → Int → Bool
  | [], s, e => s == e
  | b :: rest, s, e => (b.1 == s) && tilesB rest b.2.1 e

/-- The block `fill_gaps_with_open_ice` emits for a (parsed) event. -/
def eventBlock (ev : PEvent) : Int × Int × String :=
  (ev.startUs, ev.endUs, eventTitle ev)

/-- `[start, end)` interval disjointness of two events. -/
def NonOverlap (a b : PEvent) : Prop :=
  a.endUs ≤ b.startUs ∨ b.endUs ≤ a.startUs

instance : DecidableRel NonOverlap := fun a b =>
  inferInstanceAs (Decidable (a.endUs ≤ b.startUs ∨ b.endUs ≤ a.startUs))

/-- The number of blocks `fill_gaps_with_open_ice` emits: a closed iteration
count witnessing that each of its `while` loops runs `⌈gap / 1 hour⌉` times. -/
def fillLen : List PEvent → Int → Int → Nat
  | [], c, e => ((e - c).toNat + (hourUs.toNat - 1)) / hourUs.toNat
  | ev :: rest, c, e =>
    ((ev.startUs - c).toNat + (hourUs.toNat - 1)) / hourUs.toNat + 1 +
      fillLen rest ev.endUs e

/-- Strict-or-equal ordering on legacy dicts by their `start_date` key; it is
antisymmetric, which the sort key `legacyLE` alone is not. -/
def legacyKeyR (a b : LegacyEvent) : Prop :=
  a.start_date.data < b.start_date.data ∨ a = b

instance : IsAntisymm LegacyEvent legacyKeyR :=
  ⟨by
    intro a b hab hba
    rcases hab with h | h
    · rcases hba with h' | h'
      · exact absurd h' (lt_asymm h)
      · exact h'.symm
    · exact h⟩

/-- Two events sharing surface and start time but with different titles —
the tie case of grouping. -/
def groupEvA : ScheduleEvent :=
  { surface_id := 1, start_time := ⟨2025, 1, 1, 10, 0, 0, 0⟩,
    end_time := ⟨2025, 1, 1, 11, 0, 0, 0⟩, title := "A" }

def groupEvB : ScheduleEvent :=
  { surface_id := 1, start_time := ⟨2025, 1, 1, 10, 0, 0, 0⟩,
    end_time := ⟨2025, 1, 1, 11, 0, 0, 0⟩, title := "B" }

/-- Like `groupEvB` but one hour later — a tie-free companion. -/
def groupEvC : ScheduleEvent :=
  { surface_id := 1, start_time := ⟨2025, 1, 1, 11, 0, 0, 0⟩,
    end_time := ⟨2025, 1, 1, 12, 0, 0, 0⟩, title := "C" }

/-- A well-formed raw Chiller event used in concrete instantiations. -/
def chillerRawG1 : ChillerRawEvent :=
  { id := "1", productid := some "1", start_date := some "2025-01-01 10:00:00.0",
    end_date := some "2025-01-01 11:00:00.0", text := some "G1" }

/-- The normalized event `chillerRawG1` maps to. -/
def chillerEvG1 : ScheduleEvent :=
  { surface_id := 864, start_time := ⟨2025, 1, 1, 10, 0, 0, 0⟩,
    end_time := ⟨2025, 1, 1, 11, 0, 0, 0⟩, title := "G1" }

/-! ### Sanity checks for the strptime model -/

theorem parseChiller_sanity :
    parseChillerDatetime "2025-12-02 09:30:00.0" = some ⟨2025, 12, 2, 9, 30, 0, 0⟩ := by
  decide

theorem parseChiller_rejects_garbage : parseChillerDatetime "garbage" = none := by
  decide

theorem parseLgria_sanity :
    parseLgriaDatetime "2025-11-26T12:00:00" = some ⟨2025, 11, 26, 12, 0, 0, 0⟩ := by
  decide

/-! ### Basic lemmas about the filler loop -/

theorem gapStep_le_right (c t : Int) : gapStep c t ≤ t :=
  min_le_right _ _

theorem gapStep_lt (c t : Int) (h : c < t) : c < gapStep c t := by
  simp only [gapStep, hourUs]
  omega

theorem gapStep_measure (c t : Int) (h : c < t) :
    (t - gapStep c t).toNat < (t - c).toNat := by
  simp only [gapStep, hourUs]
  omega

theorem gapFillAux_eq_of_le :
    ∀ (n m : Nat) (c t : Int), (t - c).toNat ≤ n → (t - c).toNat ≤ m →
      gapFillAux n c t = gapFillAux m c t := by
  intro n
  induction n with
  | zero =>
    intro m c t hn _
    have hct : ¬ c < t := by omega
    cases m with
    | zero => rfl
    | succ m => simp [gapFillAux, hct]
  | succ n ih =>
    intro m c t hn hm
    by_cases hct : c < t
    · have h1 : 1 ≤ (t - c).toNat := by omega
      cases m with
      | zero => omega
      | succ m =>
        simp only [gapFillAux, hct, if_true]
        have hmeas := gapStep_measure c t hct
        exact congrArg _ (ih m (gapStep c t) t (by omega) (by omega))
    · cases m with
      | zero => simp [gapFillAux, hct]
      | succ m => simp [gapFillAux, hct]

/-- The loop unfolding of `gapFill`, independent of the iteration budget. -/
theorem gapFill_eq (c t : Int) :
    gapFill c t =
      if c < t then (c, gapStep c t, "Open Ice") :: gapFill (gapStep c t) t
      else [] := by
  by_cases h : c < t
  · obtain ⟨k, hk⟩ : ∃ k, (t - c).toNat = k + 1 := ⟨(t - c).toNat - 1, by omega⟩
    have hmeas := gapStep_measure c t h
    simp only [gapFill, hk, gapFillAux, h, if_true]
    exact congrArg _ (gapFillAux_eq_of_le k _ (gapStep c t) t (by omega) le_rfl)
  · have h0 : (t - c).toNat = 0 := by omega
    simp [gapFill, h0, gapFillAux, h]

theorem tilesB_append {l1 l2 : List (Int × Int × String)} {s m e : Int}
    (h1 : tilesB l1 s m = true) (h2 : tilesB l2 m e = true) :
    tilesB (l1 ++ l2) s e = true := by
  induction l1 generalizing s with
  | nil =>
    simp only [tilesB, beq_iff_eq] at h1
    simpa [h1] using h2
  | cons b rest ih =>
    simp only [tilesB, Bool.and_eq_true, beq_iff_eq] at h1 ⊢
    exact ⟨h1.1, ih h1.2⟩

/-- The filler loop tiles `[c, t)` exactly whenever `c ≤ t`. -/
theorem gapFill_tiles (c t : Int) (hct : c ≤ t) : tilesB (gapFill c t) c t = true := by
  obtain ⟨n, hn⟩ : ∃ n, (t - c).toNat = n := ⟨_, rfl⟩
  induction n using Nat.strong_induction_on generalizing c with
  | _ n ih =>
    rw [gapFill_eq]
    by_cases h : c < t
    · simp only [h, if_true, tilesB, beq_self_eq_true, Bool.true_and]
      exact ih ((t - gapStep c t).toNat) (by rw [← hn]; exact gapStep_measure c t h)
        (gapStep c t) (gapStep_le_right c t) rfl
    · have : c = t := le_antisymm hct (not_lt.mp h)
      simp [h, tilesB, this]

/-- A tiling's durations telescope to the window length. -/
theorem tilesB_sum :
    ∀ {l : List (Int × Int × String)} {s e : Int}, tilesB l s e = true →
      (l.map (fun b => b.2.1 - b.1)).sum = e - s := by
  intro l
  induction l with
  | nil =>
    intro s e h
    simp only [tilesB, beq_iff_eq] at h
    simp [h]
  | cons b rest ih =>
    intro s e h
    simp only [tilesB, Bool.and_eq_true, beq_iff_eq] at h
    have := ih h.2
    simp only [List.map_cons, List.sum_cons, this, h.1]
    ring

/-- Exact iteration count of the filler loop: `⌈(t - c)⁺ / 1 hour⌉` blocks. -/
theorem gapFill_length (c t : Int) :
    (gapFill c t).length = ((t - c).toNat + (hourUs.toNat - 1)) / hourUs.toNat := by
  obtain ⟨n, hn⟩ : ∃ n, (t - c).toNat = n := ⟨_, rfl⟩
  induction n using Nat.strong_induction_on generalizing c with
  | _ n ih =>
    rw [gapFill_eq]
    by_cases h : c < t
    · simp only [h, if_true, List.length_cons]
      rw [ih ((t - gapStep c t).toNat) (by rw [← hn]; exact gapStep_measure c t h)
        (gapStep c t) rfl]
      have hH : hourUs.toNat = 3600000000 := rfl
      rw [hH]
      by_cases hfar : c + hourUs ≤ t
      · have hd : (t - gapStep c t).toNat = (t - c).toNat - 3600000000 := by
          simp only [gapStep, hourUs] at hfar ⊢
          omega
        have hge : 3600000000 ≤ (t - c).toNat := by
          simp only [hourUs] at hfar
          omega
        rw [hd]
        have e1 : (t - c).toNat + (3600000000 - 1)
            = ((t - c).toNat - 3600000000 + (3600000000 - 1)) + 3600000000 := by
          omega
        rw [e1, Nat.add_div_right _ (by omega)]
      · have hd : (t - gapStep c t).toNat = 0 := by
          simp only [gapStep, hourUs] at hfar ⊢
          omega
        have hsmall : (t - c).toNat ≤ 3600000000 := by
          simp only [hourUs] at hfar
          omega
        have hpos : 1 ≤ (t - c).toNat := by omega
        rw [hd]
        rw [Nat.div_eq_of_lt (by omega)]
        rw [Nat.div_eq_of_lt_le (k := 1) (by omega) (by omega)]
    · have h0 : (t - c).toNat = 0 := by omega
      simp only [h, if_false, List.length_nil, h0]
      have hH : hourUs.toNat = 3600000000 := rfl
      rw [hH, Nat.div_eq_of_lt (by omega)]

/-- Every block the filler loop emits is an `"Open Ice"` block lying in
`[c, t)`. -/
theorem gapFill_mem (c t : Int) :
    ∀ b ∈ gapFill c t, b.2.2 = "Open Ice" ∧ c ≤ b.1 ∧ b.2.1 ≤ t := by
  obtain ⟨n, hn⟩ : ∃ n, (t - c).toNat = n := ⟨_, rfl⟩
  induction n using Nat.strong_induction_on generalizing c with
  | _ n ih =>
    intro b hb
    rw [gapFill_eq] at hb
    by_cases h : c < t
    · simp only [h, if_true, List.mem_cons] at hb
      rcases hb with rfl | hb
      · exact ⟨rfl, le_rfl, gapStep_le_right c t⟩
      · have := ih ((t - gapStep c t).toNat) (by rw [← hn]; exact gapStep_measure c t h)
          (gapStep c t) rfl b hb
        exact ⟨this.1, le_trans (le_of_lt (gapStep_lt c t h)) this.2.1, this.2.2⟩
    · simp [h] at hb

/-! ### Structure of `fillPrograms` output -/

theorem eventTitle_ne_empty (ev : PEvent) : eventTitle ev ≠ "" := by
  unfold eventTitle
  split
  · decide
  · assumption

theorem fillPrograms_eventBlock_mem :
    ∀ (pevs : List PEvent) (c e : Int) (ev : PEvent), ev ∈ pevs →
      eventBlock ev ∈ fillPrograms pevs c e := by
  intro pevs
  induction pevs with
  | nil => intro c e ev h; cases h
  | cons hd tl ih =>
    intro c e ev hm
    rcases List.mem_cons.mp hm with rfl | hm
    · exact List.mem_append_right _ (List.mem_cons_self _ _)
    · exact List.mem_append_right _ (List.mem_cons_of_mem _ (ih _ _ _ hm))

theorem fillPrograms_sublist :
    ∀ (pevs : List PEvent) (c e : Int),
      List.Sublist (pevs.map eventBlock) (fillPrograms pevs c e) := by
  intro pevs
  induction pevs with
  | nil => intro c e; exact List.nil_sublist _
  | cons hd tl ih =>
    intro c e
    have h1 : List.Sublist (eventBlock hd :: tl.map eventBlock)
        (eventBlock hd :: fillPrograms tl hd.endUs e) :=
      List.Sublist.cons₂ _ (ih _ _)
    exact h1.trans (List.sublist_append_right _ _)

theorem fillPrograms_titles :
    ∀ (pevs : List PEvent) (c e : Int) (b : Int × Int × String),
      b ∈ fillPrograms pevs c e →
      b.2.2 = "Open Ice" ∨ ∃ ev ∈ pevs, b = eventBlock ev := by
  intro pevs
  induction pevs with
  | nil =>
    intro c e b hb
    exact Or.inl (gapFill_mem c e b hb).1
  | cons hd tl ih =>
    intro c e b hb
    rcases List.mem_append.mp hb with hb | hb
    · exact Or.inl (gapFill_mem c hd.startUs b hb).1
    · rcases List.mem_cons.mp hb with rfl | hb
      · exact Or.inr ⟨hd, List.mem_cons_self _ _, rfl⟩
      · rcases ih _ _ _ hb with h | ⟨ev, hev, rfl⟩
        · exact Or.inl h
        · exact Or.inr ⟨ev, List.mem_cons_of_mem _ hev, rfl⟩

theorem fillPrograms_length :
    ∀ (pevs : List PEvent) (c e : Int),
      (fillPrograms pevs c e).length = fillLen pevs c e := by
  intro pevs
  induction pevs with
  | nil => intro c e; exact gapFill_length c e
  | cons hd tl ih =>
    intro c e
    simp only [fillPrograms, fillLen, List.length_append, List.length_cons,
      gapFill_length, ih]
    omega

theorem fillPrograms_tiles :
    ∀ (pevs : List PEvent) (c e : Int),
      c ≤ e →
      (∀ hd, pevs.head? = some hd → c ≤ hd.startUs) →
      List.Chain' (fun a b => a.endUs ≤ b.startUs) pevs →
      (∀ ev ∈ pevs, ev.endUs ≤ e) →
      tilesB (fillPrograms pevs c e) c e = true := by
  intro pevs
  induction pevs with
  | nil =>
    intro c e hce _ _ _
    exact gapFill_tiles c e hce
  | cons ev rest ih =>
    intro c e hce hfirst hchain hin
    have hcs : c ≤ ev.startUs := hfirst ev rfl
    have hee : ev.endUs ≤ e := hin ev (List.mem_cons_self _ _)
    apply tilesB_append (gapFill_tiles c ev.startUs hcs)
    simp only [tilesB, beq_self_eq_true, Bool.true_and]
    apply ih ev.endUs e hee
    · intro hd hhd
      cases rest with
      | nil => cases hhd
      | cons r rs =>
        cases hhd
        exact (List.chain'_cons.mp hchain).1
    · exact hchain.tail
    · intro x hx
      exact hin x (List.mem_cons_of_mem _ hx)

/-! ### Claim C1 — full tiling -/

/-- C1 (counterexample): the claim quantifies over all windows with
`window_start ≤ window_end` and all sorted, pairwise non-overlapping,
well-formed event lists, but does not require the events to lie inside the
window.  For the degenerate window `[T, T)` at 2025-01-01T00:00 and the single
well-formed event 00:00–01:00 (trivially sorted and non-overlapping) the
output is the one event block, so it does not tile the window: `tilesB` fails
and the durations sum to one hour, not `window_end - window_start = 0`. -/
theorem fill_full_tiling_counterexample :
    ([⟨"2025-01-01 00:00:00.0", "2025-01-01 01:00:00.0", some "Skate"⟩] :
        List LegacyEvent).mapM parseLegacy =
      some [⟨dtToMicro ⟨2025, 1, 1, 0, 0, 0, 0⟩, dtToMicro ⟨2025, 1, 1, 1, 0, 0, 0⟩,
        some "Skate"⟩] ∧
    List.Pairwise (fun a b => a.startUs ≤ b.startUs)
      [(⟨dtToMicro ⟨2025, 1, 1, 0, 0, 0, 0⟩, dtToMicro ⟨2025, 1, 1, 1, 0, 0, 0⟩,
        some "Skate"⟩ : PEvent)] ∧
    List.Pairwise NonOverlap
      [(⟨dtToMicro ⟨2025, 1, 1, 0, 0, 0, 0⟩, dtToMicro ⟨2025, 1, 1, 1, 0, 0, 0⟩,
        some "Skate"⟩ : PEvent)] ∧
    tilesB
      (fillPrograms
        [⟨dtToMicro ⟨2025, 1, 1, 0, 0, 0, 0⟩, dtToMicro ⟨2025, 1, 1, 1, 0, 0, 0⟩,
          some "Skate"⟩]
        (dtToMicro ⟨2025, 1, 1, 0, 0, 0, 0⟩) (dtToMicro ⟨2025, 1, 1, 0, 0, 0, 0⟩))
      (dtToMicro ⟨2025, 1, 1, 0, 0, 0, 0⟩) (dtToMicro ⟨2025, 1, 1, 0, 0, 0, 0⟩) = false ∧
    ((fillPrograms
        [⟨dtToMicro ⟨2025, 1, 1, 0, 0, 0, 0⟩, dtToMicro ⟨2025, 1, 1, 1, 0, 0, 0⟩,
          some "Skate"⟩]
        (dtToMicro ⟨2025, 1, 1, 0, 0, 0, 0⟩) (dtToMicro ⟨2025, 1, 1, 0, 0, 0, 0⟩)).map
      (fun b => b.2.1 - b.1)).sum ≠ 0 := by
  decide

/-- C1 (amended): full tiling holds once the events additionally satisfy
`start < end` and lie inside the window.  For every window with
`window_start ≤ window_end` and every well-formed, sorted, pairwise
non-overlapping event list whose events all satisfy `start < end` and
`window_start ≤ start` and `end ≤ window_end`, the output of
`fill_gaps_with_open_ice` tiles the window exactly: the first block starts at
`window_start`, each block starts where the previous one ended, the last block
ends at `window_end` (that is `tilesB`), and the durations sum to
`window_end - window_start`. -/
theorem fill_full_tiling (evs : List LegacyEvent) (s e : Int) (pevs : List PEvent)
    (hp : evs.mapM parseLegacy = some pevs)
    (hse : s ≤ e)
    (hsorted : pevs.Pairwise (fun a b => a.startUs ≤ b.startUs))
    (hdisj : pevs.Pairwise NonOverlap)
    (hpos : ∀ ev ∈ pevs, ev.startUs < ev.endUs)
    (hwin : ∀ ev ∈ pevs, s ≤ ev.startUs ∧ ev.endUs ≤ e) :
    fill_gaps_with_open_ice evs s e = .ok (fillPrograms pevs s e) ∧
    tilesB (fillPrograms pevs s e) s e = true ∧
    ((fillPrograms pevs s e).map (fun b => b.2.1 - b.1)).sum = e - s := by
  have hchainP : pevs.Pairwise (fun a b => a.endUs ≤ b.startUs) := by
    refine List.Pairwise.imp_of_mem ?_ (hsorted.and hdisj)
    intro a b ha hb hab
    rcases hab.2 with h | h
    · exact h
    · exact absurd (lt_of_lt_of_le (hpos b hb) (le_trans h hab.1)) (lt_irrefl _)
  have htiles : tilesB (fillPrograms pevs s e) s e = true := by
    refine fillPrograms_tiles pevs s e hse ?_ hchainP.chain' (fun ev hm => (hwin ev hm).2)
    intro hd hhd
    exact (hwin hd (List.mem_of_mem_head? hhd)).1
  refine ⟨?_, htiles, tilesB_sum htiles⟩
  unfold fill_gaps_with_open_ice
  rw [hp]

/-- C1 witness: the amended tiling theorem applied to the window
2025-01-01T00:00–02:00 with the single in-window event 00:30–01:00. -/
theorem fill_full_tiling_witness :
    fill_gaps_with_open_ice
        [⟨"2025-01-01 00:30:00.0", "2025-01-01 01:00:00.0", some "Skate"⟩]
        (dtToMicro ⟨2025, 1, 1, 0, 0, 0, 0⟩) (dtToMicro ⟨2025, 1, 1, 2, 0, 0, 0⟩) =
      .ok (fillPrograms
        [⟨dtToMicro ⟨2025, 1, 1, 0, 30, 0, 0⟩, dtToMicro ⟨2025, 1, 1, 1, 0, 0, 0⟩,
          some "Skate"⟩]
        (dtToMicro ⟨2025, 1, 1, 0, 0, 0, 0⟩) (dtToMicro ⟨2025, 1, 1, 2, 0, 0, 0⟩)) ∧
    tilesB
      (fillPrograms
        [⟨dtToMicro ⟨2025, 1, 1, 0, 30, 0, 0⟩, dtToMicro ⟨2025, 1, 1, 1, 0, 0, 0⟩,
          some "Skate"⟩]
        (dtToMicro ⟨2025, 1, 1, 0, 0, 0, 0⟩) (dtToMicro ⟨2025, 1, 1, 2, 0, 0, 0⟩))
      (dtToMicro ⟨2025, 1, 1, 0, 0, 0, 0⟩) (dtToMicro ⟨2025, 1, 1, 2, 0, 0, 0⟩) = true ∧
    ((fillPrograms
        [⟨dtToMicro ⟨2025, 1, 1, 0, 30, 0, 0⟩, dtToMicro ⟨2025, 1, 1, 1, 0, 0, 0⟩,
          some "Skate"⟩]
        (dtToMicro ⟨2025, 1, 1, 0, 0, 0, 0⟩) (dtToMicro ⟨2025, 1, 1, 2, 0, 0, 0⟩)).map
      (fun b => b.2.1 - b.1)).sum =
      dtToMicro ⟨2025, 1, 1, 2, 0, 0, 0⟩ - dtToMicro ⟨2025, 1, 1, 0, 0, 0, 0⟩ :=
  fill_full_tiling _ _ _ _ (by decide) (by decide) (by decide) (by decide)
    (by decide) (by decide)

/-! ### Claim C5 — empty output characterization -/

/-- C5 (counterexample): the claim quantifies over *every* pair
`(window_start, window_end)`, but for a reversed window (start 2025-01-02,
end 2025-01-01) with no events the function returns the empty sequence even
though `window_start ≠ window_end`: both `while` loops are skipped. -/
theorem fill_empty_output_counterexample :
    fill_gaps_with_open_ice [] (dtToMicro ⟨2025, 1, 2, 0, 0, 0, 0⟩)
        (dtToMicro ⟨2025, 1, 1, 0, 0, 0, 0⟩) = .ok [] ∧
    dtToMicro ⟨2025, 1, 2, 0, 0, 0, 0⟩ ≠ dtToMicro ⟨2025, 1, 1, 0, 0, 0, 0⟩ := by
  decide

/-- C5 (amended): restricted to windows with `window_start ≤ window_end`
(the contract precondition), the output of `fill_gaps_with_open_ice` is empty
only if `window_start = window_end`. -/
theorem fill_empty_output_only_if_degenerate (evs : List LegacyEvent) (s e : Int)
    (hse : s ≤ e) (h : fill_gaps_with_open_ice evs s e = .ok []) : s = e := by
  unfold fill_gaps_with_open_ice at h
  cases hm : evs.mapM parseLegacy with
  | none => rw [hm] at h; cases h
  | some pevs =>
    rw [hm] at h
    have hl : fillPrograms pevs s e = [] := by
      injection h
    cases pevs with
    | cons ev rest =>
      simp only [fillPrograms] at hl
      rcases List.append_eq_nil.mp hl with ⟨_, h2⟩
      cases h2
    | nil =>
      simp only [fillPrograms] at hl
      by_contra hne
      have hlt : s < e := lt_of_le_of_ne hse hne
      rw [gapFill_eq] at hl
      simp [hlt] at hl

/-- C5 witness: a degenerate window with no events yields `.ok []`, and the
theorem concludes the two endpoints are equal. -/
theorem fill_empty_output_only_if_degenerate_witness :
    dtToMicro ⟨2025, 1, 1, 0, 0, 0, 0⟩ = dtToMicro ⟨2025, 1, 1, 0, 0, 0, 0⟩ :=
  fill_empty_output_only_if_degenerate [] _ _ (le_refl _) (by decide)

/-! ### Claim C6 — termination of the gap-fill loops -/

/-- C6: `fill_gaps_with_open_ice` terminates on every input — including
reversed windows (`start > end`) and overlapping or backward events — and its
two `while` loops run a finite, explicitly computable number of iterations:
the emitted list has exactly `fillLen` blocks, where each gap contributes
`⌈gap / 1 hour⌉` filler blocks (`gapFill_length`) and each event one block.
Unparseable events make the call fail with an exception (`.error`), which is
also termination, not a hang. -/
theorem fill_gaps_terminates (evs : List LegacyEvent) (s e : Int) (pevs : List PEvent)
    (hp : evs.mapM parseLegacy = some pevs) :
    fill_gaps_with_open_ice evs s e = .ok (fillPrograms pevs s e) ∧
    (fillPrograms pevs s e).length = fillLen pevs s e := by
  constructor
  · unfold fill_gaps_with_open_ice
    rw [hp]
  · exact fillPrograms_length pevs s e

/-- C6 witness: a backward event inside a reversed window still terminates,
with the block count given by `fillLen`. -/
theorem fill_gaps_terminates_witness :
    fill_gaps_with_open_ice
        [⟨"2025-01-01 02:00:00.0", "2025-01-01 01:00:00.0", some "Backward"⟩]
        (dtToMicro ⟨2025, 1, 3, 0, 0, 0, 0⟩) (dtToMicro ⟨2025, 1, 1, 0, 0, 0, 0⟩) =
      .ok (fillPrograms
        [⟨dtToMicro ⟨2025, 1, 1, 2, 0, 0, 0⟩, dtToMicro ⟨2025, 1, 1, 1, 0, 0, 0⟩,
          some "Backward"⟩]
        (dtToMicro ⟨2025, 1, 3, 0, 0, 0, 0⟩) (dtToMicro ⟨2025, 1, 1, 0, 0, 0, 0⟩)) ∧
    (fillPrograms
        [⟨dtToMicro ⟨2025, 1, 1, 2, 0, 0, 0⟩, dtToMicro ⟨2025, 1, 1, 1, 0, 0, 0⟩,
          some "Backward"⟩]
        (dtToMicro ⟨2025, 1, 3, 0, 0, 0, 0⟩) (dtToMicro ⟨2025, 1, 1, 0, 0, 0, 0⟩)).length =
      fillLen
        [⟨dtToMicro ⟨2025, 1, 1, 2, 0, 0, 0⟩, dtToMicro ⟨2025, 1, 1, 1, 0, 0, 0⟩,
          some "Backward"⟩]
        (dtToMicro ⟨2025, 1, 3, 0, 0, 0, 0⟩) (dtToMicro ⟨2025, 1, 1, 0, 0, 0, 0⟩) :=
  fill_gaps_terminates _ _ _ _ (by decide)

/-! ### Claim C8 — empty-title fallback -/

/-- C8: the block emitted for an event whose `"text"` entry is absent, empty,
or whitespace-only carries the fixed fallback title `"Ice Time"`; an event
with a non-whitespace title keeps its trimmed title; and no emitted block ever
carries an empty title. -/
theorem fill_title_fallback (evs : List LegacyEvent) (s e : Int) (pevs : List PEvent)
    (hp : evs.mapM parseLegacy = some pevs) (ev : PEvent) (hm : ev ∈ pevs) :
    fill_gaps_with_open_ice evs s e = .ok (fillPrograms pevs s e) ∧
    ((ev.text = none ∨ ∃ t0, ev.text = some t0 ∧ pyStrip t0 = "") →
      (ev.startUs, ev.endUs, "Ice Time") ∈ fillPrograms pevs s e) ∧
    (∀ t0, ev.text = some t0 → pyStrip t0 ≠ "" →
      (ev.startUs, ev.endUs, pyStrip t0) ∈ fillPrograms pevs s e) ∧
    (∀ b ∈ fillPrograms pevs s e, b.2.2 ≠ "") := by
  have hmem := fillPrograms_eventBlock_mem pevs s e ev hm
  refine ⟨?_, ?_, ?_, ?_⟩
  · unfold fill_gaps_with_open_ice
    rw [hp]
  · intro hblank
    have ht : eventTitle ev = "Ice Time" := by
      rcases hblank with h | ⟨t0, h, ht0⟩
      · simp [eventTitle, h]
        decide
      · simp [eventTitle, h, ht0]
    rw [← ht]
    exact hmem
  · intro t0 h ht0
    have ht : eventTitle ev = pyStrip t0 := by
      simp [eventTitle, h, ht0]
    rw [← ht]
    exact hmem
  · intro b hb
    rcases fillPrograms_titles pevs s e b hb with h | ⟨ev', _, rfl⟩
    · rw [h]
      decide
    · exact eventTitle_ne_empty ev'

/-- C8 witness: a whitespace-only title is replaced by `"Ice Time"`. -/
theorem fill_title_fallback_witness :
    fill_gaps_with_open_ice
        [⟨"2025-01-01 01:00:00.0", "2025-01-01 02:00:00.0", some "   "⟩]
        (dtToMicro ⟨2025, 1, 1, 0, 0, 0, 0⟩) (dtToMicro ⟨2025, 1, 1, 3, 0, 0, 0⟩) =
      .ok (fillPrograms
        [⟨dtToMicro ⟨2025, 1, 1, 1, 0, 0, 0⟩, dtToMicro ⟨2025, 1, 1, 2, 0, 0, 0⟩,
          some "   "⟩]
        (dtToMicro ⟨2025, 1, 1, 0, 0, 0, 0⟩) (dtToMicro ⟨2025, 1, 1, 3, 0, 0, 0⟩)) ∧
    (((⟨dtToMicro ⟨2025, 1, 1, 1, 0, 0, 0⟩, dtToMicro ⟨2025, 1, 1, 2, 0, 0, 0⟩,
          some "   "⟩ : PEvent).text = none ∨
        ∃ t0, (⟨dtToMicro ⟨2025, 1, 1, 1, 0, 0, 0⟩, dtToMicro ⟨2025, 1, 1, 2, 0, 0, 0⟩,
          some "   "⟩ : PEvent).text = some t0 ∧ pyStrip t0 = "") →
      (dtToMicro ⟨2025, 1, 1, 1, 0, 0, 0⟩, dtToMicro ⟨2025, 1, 1, 2, 0, 0, 0⟩, "Ice Time") ∈
        fillPrograms
          [⟨dtToMicro ⟨2025, 1, 1, 1, 0, 0, 0⟩, dtToMicro ⟨2025, 1, 1, 2, 0, 0, 0⟩,
            some "   "⟩]
          (dtToMicro ⟨2025, 1, 1, 0, 0, 0, 0⟩) (dtToMicro ⟨2025, 1, 1, 3, 0, 0, 0⟩)) ∧
    (∀ t0, (⟨dtToMicro ⟨2025, 1, 1, 1, 0, 0, 0⟩, dtToMicro ⟨2025, 1, 1, 2, 0, 0, 0⟩,
          some "   "⟩ : PEvent).text = some t0 → pyStrip t0 ≠ "" →
      (dtToMicro ⟨2025, 1, 1, 1, 0, 0, 0⟩, dtToMicro ⟨2025, 1, 1, 2, 0, 0, 0⟩, pyStrip t0) ∈
        fillPrograms
          [⟨dtToMicro ⟨2025, 1, 1, 1, 0, 0, 0⟩, dtToMicro ⟨2025, 1, 1, 2, 0, 0, 0⟩,
            some "   "⟩]
          (dtToMicro ⟨2025, 1, 1, 0, 0, 0, 0⟩) (dtToMicro ⟨2025, 1, 1, 3, 0, 0, 0⟩)) ∧
    (∀ b ∈ fillPrograms
          [⟨dtToMicro ⟨2025, 1, 1, 1, 0, 0, 0⟩, dtToMicro ⟨2025, 1, 1, 2, 0, 0, 0⟩,
            some "   "⟩]
          (dtToMicro ⟨2025, 1, 1, 0, 0, 0, 0⟩) (dtToMicro ⟨2025, 1, 1, 3, 0, 0, 0⟩),
        b.2.2 ≠ "") :=
  fill_title_fallback _ _ _ _ (by decide) _ (List.mem_singleton_self _)

/-! ### Claim C9 — the concrete example scenario -/

/-- C9: for the window 2025-01-01T00:00 – 2025-01-03T00:00 and the single
event 09:30–11:00 "Public Skate", the output is the nine hourly `"Open Ice"`
blocks 00:00–01:00 … 08:00–09:00, the truncated filler 09:00–09:30, the event
block, and then 37 hourly fillers 11:00–12:00 … 2025-01-02T23:00–2025-01-03T00:00,
in that order. -/
theorem fill_example_scenario :
    fill_gaps_with_open_ice
        [⟨"2025-01-01 09:30:00.0", "2025-01-01 11:00:00.0", some "Public Skate"⟩]
        (dtToMicro ⟨2025, 1, 1, 0, 0, 0, 0⟩) (dtToMicro ⟨2025, 1, 3, 0, 0, 0, 0⟩) =
      .ok
        ((List.range 9).map (fun i =>
            (dtToMicro ⟨2025, 1, 1, 0, 0, 0, 0⟩ + i * hourUs,
             dtToMicro ⟨2025, 1, 1, 0, 0, 0, 0⟩ + (i + 1) * hourUs, "Open Ice")) ++
          [(dtToMicro ⟨2025, 1, 1, 9, 0, 0, 0⟩, dtToMicro ⟨2025, 1, 1, 9, 30, 0, 0⟩,
            "Open Ice"),
           (dtToMicro ⟨2025, 1, 1, 9, 30, 0, 0⟩, dtToMicro ⟨2025, 1, 1, 11, 0, 0, 0⟩,
            "Public Skate")] ++
          (List.range 37).map (fun i =>
            (dtToMicro ⟨2025, 1, 1, 11, 0, 0, 0⟩ + i * hourUs,
             dtToMicro ⟨2025, 1, 1, 11, 0, 0, 0⟩ + (i + 1) * hourUs, "Open Ice"))) := by
  decide

/-! ### Claim C10 — events are never clipped to the window -/

/-- C10 (counterexample): "appears as exactly one block whose start and end
equal that event's parsed dates" fails for unsorted input.  With events A
(01:00–02:00) and B (00:00–01:00) in that order and window 00:00–02:00, the
gap before A is tiled by a filler block 00:00–01:00, and B's own block is
emitted as well, so *two* output blocks carry B's exact start and end. -/
theorem fill_exactly_one_block_counterexample :
    parseLegacy ⟨"2025-01-01 00:00:00.0", "2025-01-01 01:00:00.0", some "B"⟩ =
      some ⟨dtToMicro ⟨2025, 1, 1, 0, 0, 0, 0⟩, dtToMicro ⟨2025, 1, 1, 1, 0, 0, 0⟩,
        some "B"⟩ ∧
    (fill_gaps_with_open_ice
        [⟨"2025-01-01 01:00:00.0", "2025-01-01 02:00:00.0", some "A"⟩,
         ⟨"2025-01-01 00:00:00.0", "2025-01-01 01:00:00.0", some "B"⟩]
        (dtToMicro ⟨2025, 1, 1, 0, 0, 0, 0⟩)
        (dtToMicro ⟨2025, 1, 1, 2, 0, 0, 0⟩)).toOption.map
      (fun l => l.countP (fun b =>
        b.1 == dtToMicro ⟨2025, 1, 1, 0, 0, 0, 0⟩ &&
        b.2.1 == dtToMicro ⟨2025, 1, 1, 1, 0, 0, 0⟩)) = some 2 := by
  decide

/-- C10 (amended): every well-formed input event yields, per occurrence and in
input order, a block whose start and end are that event's parsed
`start_date`/`end_date` verbatim — the event blocks form a sublist of the
output — even when the event lies partly or wholly outside the window; the
function never truncates, splits, or drops a well-formed event.  ("Exactly
one" fails only when a filler or duplicate coincides with the event's
endpoints, as in the counterexample.) -/
theorem fill_events_never_clipped (evs : List LegacyEvent) (s e : Int)
    (pevs : List PEvent) (hp : evs.mapM parseLegacy = some pevs) :
    fill_gaps_with_open_ice evs s e = .ok (fillPrograms pevs s e) ∧
    List.Sublist (pevs.map eventBlock) (fillPrograms pevs s e) := by
  constructor
  · unfold fill_gaps_with_open_ice
    rw [hp]
  · exact fillPrograms_sublist pevs s e

/-- C10 witness: an event lying entirely outside the window (June, window in
January) still appears verbatim in the output. -/
theorem fill_events_never_clipped_witness :
    fill_gaps_with_open_ice
        [⟨"2025-06-01 10:00:00.0", "2025-06-01 11:00:00.0", some "Summer"⟩]
        (dtToMicro ⟨2025, 1, 1, 0, 0, 0, 0⟩) (dtToMicro ⟨2025, 1, 1, 2, 0, 0, 0⟩) =
      .ok (fillPrograms
        [⟨dtToMicro ⟨2025, 6, 1, 10, 0, 0, 0⟩, dtToMicro ⟨2025, 6, 1, 11, 0, 0, 0⟩,
          some "Summer"⟩]
        (dtToMicro ⟨2025, 1, 1, 0, 0, 0, 0⟩) (dtToMicro ⟨2025, 1, 1, 2, 0, 0, 0⟩)) ∧
    List.Sublist
      ([(⟨dtToMicro ⟨2025, 6, 1, 10, 0, 0, 0⟩, dtToMicro ⟨2025, 6, 1, 11, 0, 0, 0⟩,
          some "Summer"⟩ : PEvent)].map eventBlock)
      (fillPrograms
        [⟨dtToMicro ⟨2025, 6, 1, 10, 0, 0, 0⟩, dtToMicro ⟨2025, 6, 1, 11, 0, 0, 0⟩,
          some "Summer"⟩]
        (dtToMicro ⟨2025, 1, 1, 0, 0, 0, 0⟩) (dtToMicro ⟨2025, 1, 1, 2, 0, 0, 0⟩)) :=
  fill_events_never_clipped _ _ _ _ (by decide)

/-! ### Lookup structure of `group_events_by_surface` -/

theorem lookup_addEvent_eq (acc : List (Int × List LegacyEvent)) (sid : Int)
    (le : LegacyEvent) :
    List.lookup sid (addEvent acc sid le) =
      some (((List.lookup sid acc).getD []) ++ [le]) := by
  induction acc with
  | nil => simp [addEvent, List.lookup]
  | cons p rest ih =>
    obtain ⟨k, vs⟩ := p
    by_cases h : k = sid
    · subst h
      simp [addEvent, List.lookup]
    · have h2 : (sid == k) = false := beq_eq_false_iff_ne.mpr (fun hh => h hh.symm)
      simp [addEvent, h, List.lookup, h2, ih]

theorem lookup_addEvent_ne (acc : List (Int × List LegacyEvent)) (sid k0 : Int)
    (le : LegacyEvent) (h : k0 ≠ sid) :
    List.lookup k0 (addEvent acc sid le) = List.lookup k0 acc := by
  have hb : (k0 == sid) = false := beq_eq_false_iff_ne.mpr h
  induction acc with
  | nil => simp [addEvent, List.lookup, hb]
  | cons p rest ih =>
    obtain ⟨k, vs⟩ := p
    by_cases hk : k = sid
    · subst hk
      simp [addEvent, List.lookup, hb]
    · by_cases hkk : k0 = k
      · have hkb : (k0 == k) = true := beq_iff_eq.mpr hkk
        simp [addEvent, hk, List.lookup, hkb]
      · have hkb : (k0 == k) = false := beq_eq_false_iff_ne.mpr hkk
        simp [addEvent, hk, List.lookup, hkb, ih]

theorem lookup_foldl_addEvent :
    ∀ (l : List ScheduleEvent) (acc : List (Int × List LegacyEvent)) (sid : Int),
      List.lookup sid (l.foldl (fun a ev => addEvent a ev.surface_id (toLegacy ev)) acc) =
        if (l.filter (fun e => e.surface_id == sid)) = [] then List.lookup sid acc
        else some ((List.lookup sid acc).getD [] ++
          ((l.filter (fun e => e.surface_id == sid)).map toLegacy)) := by
  intro l
  induction l with
  | nil => intro acc sid; simp
  | cons ev l ih =>
    intro acc sid
    rw [List.foldl_cons, ih]
    by_cases hs : ev.surface_id = sid
    · have hfilter : (ev :: l).filter (fun e => e.surface_id == sid) =
          ev :: l.filter (fun e => e.surface_id == sid) := by
        simp [List.filter_cons, hs]
      rw [hfilter, hs]
      by_cases hl : l.filter (fun e => e.surface_id == sid) = []
      · rw [if_pos hl, if_neg (List.cons_ne_nil _ _), lookup_addEvent_eq, hl]
        simp
      · rw [if_neg hl, if_neg (List.cons_ne_nil _ _), lookup_addEvent_eq]
        simp
    · have hfilter : (ev :: l).filter (fun e => e.surface_id == sid) =
          l.filter (fun e => e.surface_id == sid) := by
        simp [List.filter_cons, hs]
      rw [hfilter, lookup_addEvent_ne acc ev.surface_id sid (toLegacy ev)
        (fun hh => hs hh.symm)]

theorem lookup_groupRaw (l : List ScheduleEvent) (sid : Int) :
    List.lookup sid (groupRaw l) =
      if (l.filter (fun e => e.surface_id == sid)) = [] then none
      else some ((l.filter (fun e => e.surface_id == sid)).map toLegacy) := by
  unfold groupRaw
  rw [lookup_foldl_addEvent]
  simp [List.lookup]

theorem lookup_map_snd (f : List LegacyEvent → List LegacyEvent) :
    ∀ (assoc : List (Int × List LegacyEvent)) (sid : Int),
      List.lookup sid (assoc.map (fun p => (p.1, f p.2))) =
        (List.lookup sid assoc).map f := by
  intro assoc
  induction assoc with
  | nil => intro sid; simp [List.lookup]
  | cons p rest ih =>
    intro sid
    obtain ⟨k, v⟩ := p
    by_cases h : sid = k
    · have hb : (sid == k) = true := beq_iff_eq.mpr h
      simp [List.lookup, hb]
    · have hb : (sid == k) = false := beq_eq_false_iff_ne.mpr h
      simp [List.lookup, hb, ih]

/-- The grouped output, read as a Python dict: `sid` maps to the stably
sorted legacy conversions of exactly the events with that surface id, in
fetch order; surfaces with no events are absent. -/
theorem lookup_group_events (l : List ScheduleEvent) (sid : Int) :
    List.lookup sid (group_events_by_surface l) =
      if (l.filter (fun e => e.surface_id == sid)) = [] then none
      else some (sortLegacy ((l.filter (fun e => e.surface_id == sid)).map toLegacy)) := by
  unfold group_events_by_surface
  rw [lookup_map_snd sortLegacy, lookup_groupRaw]
  by_cases h : (l.filter (fun e => e.surface_id == sid)) = [] <;> simp [h]

/-- Two permuted lists whose records have pairwise-distinct sort keys (or are
equal records) have the same stable sort. -/
theorem sortLegacy_eq_of_perm (A B : List LegacyEvent) (hperm : A.Perm B)
    (hkey : ∀ a ∈ A, ∀ b ∈ A, a.start_date = b.start_date → a = b) :
    sortLegacy A = sortLegacy B := by
  have hpermS : (sortLegacy A).Perm (sortLegacy B) :=
    (List.perm_insertionSort legacyLE A).trans
      (hperm.trans (List.perm_insertionSort legacyLE B).symm)
  have hmemA : ∀ x ∈ sortLegacy A, x ∈ A := fun x hx =>
    (List.perm_insertionSort legacyLE A).subset hx
  have hmemB : ∀ x ∈ sortLegacy B, x ∈ A := fun x hx =>
    hperm.symm.subset ((List.perm_insertionSort legacyLE B).subset hx)
  have hA : List.Sorted legacyKeyR (sortLegacy A) := by
    refine List.Pairwise.imp_of_mem ?_ (List.sorted_insertionSort legacyLE A)
    intro a b ha hb hab
    have hab' : a.start_date.data ≤ b.start_date.data := hab
    rcases lt_or_eq_of_le hab' with h | h
    · exact Or.inl h
    · exact Or.inr (hkey a (hmemA _ ha) b (hmemA _ hb) (String.ext h))
  have hB : List.Sorted legacyKeyR (sortLegacy B) := by
    refine List.Pairwise.imp_of_mem ?_ (List.sorted_insertionSort legacyLE B)
    intro a b ha hb hab
    have hab' : a.start_date.data ≤ b.start_date.data := hab
    rcases lt_or_eq_of_le hab' with h | h
    · exact Or.inl h
    · exact Or.inr (hkey a (hmemB _ ha) b (hmemB _ hb) (String.ext h))
  exact List.eq_of_perm_of_sorted hpermS hA hB

/-! ### Claim C4 — providers fail soft -/

/-- C4: neither provider ever propagates a remote-fetch or top-level parse
failure: on a transport error, an XML parse failure (Chiller), a missing
`_onlineScheduleList` variable, a missing or unbalanced bracket, or malformed
JSON (LGRIA), `fetch_schedule` returns the empty sequence.  (Totality of the
model functions reflects that the `try`/`except Exception` wrapper swallows
every exception raised in the body.) -/
theorem providers_fail_soft :
    chillerFetchSchedule .transportError = [] ∧
    chillerFetchSchedule .xmlParseError = [] ∧
    (∀ jsonLoads ws we, lgriaFetchSchedule jsonLoads .transportError ws we = []) ∧
    (∀ jsonLoads ws we page err,
      extractJsListVariable page "_onlineScheduleList" = .error err →
      lgriaFetchSchedule jsonLoads (.html page) ws we = []) ∧
    (∀ jsonLoads ws we page raw,
      extractJsListVariable page "_onlineScheduleList" = .ok raw →
      jsonLoads raw = none →
      lgriaFetchSchedule jsonLoads (.html page) ws we = []) := by
  refine ⟨rfl, rfl, fun _ _ _ => rfl, ?_, ?_⟩
  · intro jsonLoads ws we page err hx
    simp only [lgriaFetchSchedule]
    rw [hx]
  · intro jsonLoads ws we page raw hx hj
    simp only [lgriaFetchSchedule]
    rw [hx]
    show (match jsonLoads raw with
      | none => ([] : List ScheduleEvent)
      | some raws => lgriaNormalize ws we raws) = []
    rw [hj]

/-- C4 witness: a page without the variable (missing-marker `RuntimeError`)
and a page whose array fails `json.loads` both yield the empty sequence. -/
theorem providers_fail_soft_witness :
    lgriaFetchSchedule (fun _ => none) (.html "<html>no schedule here</html>") 0 0 = [] ∧
    lgriaFetchSchedule (fun _ => none) (.html "var _onlineScheduleList = [broken;") 0 0 = [] ∧
    lgriaFetchSchedule (fun _ => none) (.html "var _onlineScheduleList = [not json]") 0 0 = [] :=
  ⟨providers_fail_soft.2.2.2.1 (fun _ => none) 0 0 _
      "Could not find variable _onlineScheduleList in HTML" (by decide),
   providers_fail_soft.2.2.2.1 (fun _ => none) 0 0 _
      "Could not find matching bracket for _onlineScheduleList" (by decide),
   providers_fail_soft.2.2.2.2 (fun _ => none) 0 0 _ "[not json]" (by decide) rfl⟩

/-! ### Claim C7 — per-record failure isolation in the Chiller provider -/

/-- C7: an allow-listed raw event whose `start_date` or `end_date` fails the
fixed-format parse is dropped individually — it normalizes to nothing and the
remaining events of the same payload are returned unchanged. -/
theorem chiller_per_record_isolation (l1 l2 : List ChillerRawEvent)
    (bad : ChillerRawEvent)
    (hallow : bad.productid.getD "" ∈ ICE_SHEET_PRODUCT_IDS)
    (hbad : parseChillerDatetime (bad.start_date.getD "") = none ∨
            parseChillerDatetime (bad.end_date.getD "") = none) :
    chillerNormalize (l1 ++ bad :: l2) = chillerNormalize l1 ++ chillerNormalize l2 ∧
    chillerNormOne bad = none := by
  have hnone : chillerNormOne bad = none := by
    unfold chillerNormOne
    rw [if_pos hallow]
    split
    · rfl
    · split
      · rfl
      · split
        · exfalso
          rename_i hp1 hp2
          rcases hbad with h | h
          · rw [h] at hp1; cases hp1
          · rw [h] at hp2; cases hp2
        · rfl
  refine ⟨?_, hnone⟩
  unfold chillerNormalize
  rw [List.filterMap_append]
  congr 1
  simp [List.filterMap_cons, hnone]

/-- C7 witness: a payload with a good event, a bad-timestamp event, and
another good event keeps both good events and drops only the bad one. -/
theorem chiller_per_record_isolation_witness :
    chillerNormalize
        ([{ id := "1", productid := some "1", start_date := some "2025-01-01 10:00:00.0",
            end_date := some "2025-01-01 11:00:00.0", text := some "G1" }] ++
          { id := "2", productid := some "2", start_date := some "not a date",
            end_date := some "2025-01-01 12:00:00.0", text := some "Bad" } ::
          [{ id := "3", productid := some "24", start_date := some "2025-01-01 12:00:00.0",
             end_date := some "2025-01-01 13:00:00.0", text := some "G2" }]) =
      chillerNormalize
        [{ id := "1", productid := some "1", start_date := some "2025-01-01 10:00:00.0",
           end_date := some "2025-01-01 11:00:00.0", text := some "G1" }] ++
      chillerNormalize
        [{ id := "3", productid := some "24", start_date := some "2025-01-01 12:00:00.0",
           end_date := some "2025-01-01 13:00:00.0", text := some "G2" }] ∧
    chillerNormOne
        { id := "2", productid := some "2", start_date := some "not a date",
          end_date := some "2025-01-01 12:00:00.0", text := some "Bad" } = none :=
  chiller_per_record_isolation _ _ _ (by decide) (by decide)

/-! ### Claim C2 — the surviving-record invariant -/

/-- C2 (counterexample): the providers only drop events whose timestamps fail
to parse; they never compare `start_time` with `end_time`.  A raw Chiller
event with parseable timestamps in the wrong order survives normalization with
`start_time > end_time` and reaches the grouped output. -/
theorem chiller_backward_record_survives_counterexample :
    chillerNormalize
        [{ id := "9", productid := some "1",
           start_date := some "2025-01-02 10:00:00.0",
           end_date := some "2025-01-01 09:00:00.0", text := some "Backward" }] =
      [{ surface_id := 864, start_time := ⟨2025, 1, 2, 10, 0, 0, 0⟩,
         end_time := ⟨2025, 1, 1, 9, 0, 0, 0⟩, title := "Backward" }] ∧
    dtToMicro (⟨2025, 1, 1, 9, 0, 0, 0⟩ : DateTime) <
      dtToMicro (⟨2025, 1, 2, 10, 0, 0, 0⟩ : DateTime) ∧
    List.lookup 864
        (group_events_by_surface (chillerNormalize
          [{ id := "9", productid := some "1",
             start_date := some "2025-01-02 10:00:00.0",
             end_date := some "2025-01-01 09:00:00.0", text := some "Backward" }])) =
      some [{ start_date := "2025-01-02 10:00:00.0",
              end_date := "2025-01-01 09:00:00.0", text := some "Backward" }] := by
  decide

/-- C2 (amended): what the pipeline actually guarantees for every record
surviving into the grouped/sorted stage is that both of its timestamps parsed
successfully — each provider drops a record exactly when a timestamp fails to
parse, and grouping only repackages normalized records — but
`start_time < end_time` itself is not checked anywhere. -/
theorem survivor_has_parseable_times :
    (∀ (raws : List ChillerRawEvent) (ev : ScheduleEvent), ev ∈ chillerNormalize raws →
      ∃ raw ∈ raws,
        parseChillerDatetime (raw.start_date.getD "") = some ev.start_time ∧
        parseChillerDatetime (raw.end_date.getD "") = some ev.end_time) ∧
    (∀ (ws we : Int) (raws : List LgriaRawEvent) (ev : ScheduleEvent),
      ev ∈ lgriaNormalize ws we raws →
      ∃ raw ∈ raws,
        parseLgriaDatetime (raw.EventStartTime.getD "") = some ev.start_time ∧
        parseLgriaDatetime (raw.EventEndTime.getD "") = some ev.end_time) ∧
    (∀ (l : List ScheduleEvent) (sid : Int) (vs : List LegacyEvent),
      List.lookup sid (group_events_by_surface l) = some vs →
      ∀ le ∈ vs, ∃ ev ∈ l, ev.surface_id = sid ∧ le = toLegacy ev) := by
  refine ⟨?_, ?_, ?_⟩
  · intro raws ev h
    unfold chillerNormalize at h
    rcases List.mem_filterMap.mp h with ⟨raw, hmem, hone⟩
    refine ⟨raw, hmem, ?_⟩
    unfold chillerNormOne at hone
    split at hone
    · split at hone
      · cases hone
      · split at hone
        · cases hone
        · split at hone
          · rename_i hp1 hp2
            obtain rfl := Option.some.inj hone
            exact ⟨hp1, hp2⟩
          · cases hone
    · cases hone
  · intro ws we raws ev h
    unfold lgriaNormalize at h
    have h' : ev ∈ raws.filterMap (lgriaNormOne ws we) :=
      (List.perm_insertionSort eventTimeLE _).subset h
    rcases List.mem_filterMap.mp h' with ⟨raw, hmem, hone⟩
    refine ⟨raw, hmem, ?_⟩
    unfold lgriaNormOne at hone
    split at hone
    · rename_i hp1 hp2
      split at hone
      · cases hone
      · obtain rfl := Option.some.inj hone
        exact ⟨hp1, hp2⟩
    · cases hone
  · intro l sid vs h le hle
    rw [lookup_group_events] at h
    split at h
    · cases h
    · obtain rfl := Option.some.inj h
      have hle' : le ∈ (l.filter (fun e => e.surface_id == sid)).map toLegacy :=
        (List.perm_insertionSort legacyLE _).subset hle
      rcases List.mem_map.mp hle' with ⟨ev, hev, rfl⟩
      have h2 := List.mem_filter.mp hev
      exact ⟨ev, h2.1, by simpa using h2.2, rfl⟩

/-- C2 witness: the amended theorem applied to a one-event Chiller payload. -/
theorem survivor_has_parseable_times_witness :
    ∃ raw ∈ [chillerRawG1],
      parseChillerDatetime (raw.start_date.getD "") = some chillerEvG1.start_time ∧
      parseChillerDatetime (raw.end_date.getD "") = some chillerEvG1.end_time :=
  survivor_has_parseable_times.1 [chillerRawG1] chillerEvG1 (by decide)

/-! ### Claim C3 — order-insensitivity of grouping -/

/-- C3 (counterexample): grouping plus per-group sort is *not* insensitive to
input order when two events of the same surface share a start time.  The sort
key is the formatted `start_date` string and the sort is stable, so swapping
`groupEvA`/`groupEvB` (same surface, same start, different titles) swaps their
order inside the group: the two dicts differ at key 1. -/
theorem group_events_order_insensitive_counterexample :
    List.Perm [groupEvB, groupEvA] [groupEvA, groupEvB] ∧
    List.lookup 1 (group_events_by_surface [groupEvA, groupEvB]) ≠
      List.lookup 1 (group_events_by_surface [groupEvB, groupEvA]) := by
  decide

/-- C3 (amended): grouping plus per-group sort is insensitive to input order
provided no two *distinct* events of the same surface share the same formatted
start time (`strftime("%Y-%m-%d %H:%M:%S.0")`, i.e. equal when truncated to
seconds): for any permutation the resulting dicts are equal — same keys and,
for each key, identical ordered sequences. -/
theorem group_events_order_insensitive (l1 l2 : List ScheduleEvent)
    (hperm : l1.Perm l2)
    (hkey : ∀ a ∈ l1, ∀ b ∈ l1, a.surface_id = b.surface_id →
      formatLegacy a.start_time = formatLegacy b.start_time → a = b) :
    ∀ sid, List.lookup sid (group_events_by_surface l1) =
      List.lookup sid (group_events_by_surface l2) := by
  intro sid
  rw [lookup_group_events, lookup_group_events]
  have hpf := hperm.filter (fun e => e.surface_id == sid)
  by_cases h1 : l1.filter (fun e => e.surface_id == sid) = []
  · rw [h1] at hpf
    rw [if_pos h1, if_pos hpf.symm.eq_nil]
  · have h2 : l2.filter (fun e => e.surface_id == sid) ≠ [] := by
      intro hc
      rw [hc] at hpf
      exact h1 hpf.eq_nil
    rw [if_neg h1, if_neg h2]
    congr 1
    apply sortLegacy_eq_of_perm _ _ (hpf.map toLegacy)
    intro a ha b hb heq
    obtain ⟨ea, hea, rfl⟩ := List.mem_map.mp ha
    obtain ⟨eb, heb, rfl⟩ := List.mem_map.mp hb
    have h3 := List.mem_filter.mp hea
    have h4 := List.mem_filter.mp heb
    have hsa : ea.surface_id = sid := by simpa using h3.2
    have hsb : eb.surface_id = sid := by simpa using h4.2
    have heb2 : ea = eb := hkey ea h3.1 eb h4.1 (hsa.trans hsb.symm) heq
    rw [heb2]

/-- C3 witness: two same-surface events with distinct start times group
identically in either input order. -/
theorem group_events_order_insensitive_witness :
    List.lookup 1 (group_events_by_surface [groupEvA, groupEvC]) =
      List.lookup 1 (group_events_by_surface [groupEvC, groupEvA]) :=
  group_events_order_insensitive _ _ (by decide) (by decide) 1

end LivebarnScrape
